import Mathlib

/-!
Verification of the org-note web adapter's core engine (`src/main.py`).

The Python source is shallowly embedded: strings are Lean `String`s
manipulated through their character lists, Python `None`/values become
`Option`, Python dicts become association lists with first-match lookup
(keys are kept unique by the insertion function, mirroring dict
semantics), and Python sets become `List String` with membership.
Regular-expression matching is embedded as explicit scanners that
implement the concrete patterns' semantics (leftmost match, the
backtracking behaviour of the optional groups, greedy character
classes).  Python's `\s` is modelled by `Char.isWhitespace` and
`str.lower` by ASCII `Char.toLower`; both coincide with CPython on the
ASCII texts the program manipulates.
-/

/-! ## Character and string primitives -/

def isPySpace (c : Char) : Bool := c.isWhitespace

/-- Python `str.strip()` (no arguments): trim whitespace from both ends. -/
def pyStrip (s : String) : String :=
  ⟨((s.data.dropWhile isPySpace).reverse.dropWhile isPySpace).reverse⟩

/-- Python `str.lstrip()` (no arguments). -/
def pyLstrip (s : String) : String := ⟨s.data.dropWhile isPySpace⟩

/-- Python `str.lstrip(chars)`: drop leading characters belonging to the set. -/
def pyLstripChars (s : String) (cs : List Char) : String :=
  ⟨s.data.dropWhile (fun c => decide (c ∈ cs))⟩

/-- Python `str.rstrip(chars)`: drop trailing characters belonging to the set. -/
def pyRstripChars (s : String) (cs : List Char) : String :=
  ⟨(s.data.reverse.dropWhile (fun c => decide (c ∈ cs))).reverse⟩

/-- Python `str.startswith(p)`. -/
def pyStartsWith (s p : String) : Bool := p.data.isPrefixOf s.data

/-- Python `str.endswith(p)`. -/
def pyEndsWith (s p : String) : Bool := p.data.isSuffixOf s.data

/-- Python `str.lower()` (ASCII). -/
def pyToLower (s : String) : String := ⟨s.data.map Char.toLower⟩

/-- Python `c in s` for a single character. -/
def pyContainsChar (s : String) (c : Char) : Bool := s.data.contains c

/-- Python slicing `s[n:]` (by characters). -/
def pyDrop (s : String) (n : Nat) : String := ⟨s.data.drop n⟩

/-- Python slicing `s[i:j]` (by characters). -/
def pySlice (s : String) (i j : Nat) : String := ⟨(s.data.drop i).take (j - i)⟩

/-- Substring (infix) test on character lists, for Python `sub in s`. -/
def hasInfix : List Char → List Char → Bool
  | [], sub => sub.isEmpty
  | c :: rest, sub => sub.isPrefixOf (c :: rest) || hasInfix rest sub

def pyContainsSub (s sub : String) : Bool := hasInfix s.data sub.data

/-- Characters of `cs` before the first occurrence of `sub`
(Python `s.split(sub, 1)[0]` when `sub in s`). -/
def beforeSubAux : List Char → List Char → List Char
  | [], _ => []
  | c :: rest, sub => if sub.isPrefixOf (c :: rest) then [] else c :: beforeSubAux rest sub

def beforeSub (s sub : String) : String := ⟨beforeSubAux s.data sub.data⟩

/-- Python `"sep".join`-style concatenation, as used by `"\n".join(...)`. -/
def joinWith (sep : String) : List String → String
  | [] => ""
  | x :: xs => xs.foldl (fun a b => a ++ sep ++ b) x

/-- Python `str.splitlines()` restricted to the line breaks the corpus
uses: `\n`, `\r\n` and `\r`. -/
def splitlinesAux : List Char → List Char → List String
  | [], acc => if acc.isEmpty then [] else [⟨acc.reverse⟩]
  | '\n' :: rest, acc => ⟨acc.reverse⟩ :: splitlinesAux rest []
  | '\r' :: '\n' :: rest, acc => ⟨acc.reverse⟩ :: splitlinesAux rest []
  | '\r' :: rest, acc => ⟨acc.reverse⟩ :: splitlinesAux rest []
  | c :: rest, acc => splitlinesAux rest (c :: acc)

def pySplitlines (s : String) : List String := splitlinesAux s.data []

/-- Python `int(s)` for base 10 (optional surrounding whitespace and sign). -/
def pyInt (s : String) : Option Int :=
  let cs := s.data.dropWhile isPySpace
  let signed : Bool × List Char :=
    match cs with
    | '-' :: r => (true, r)
    | '+' :: r => (false, r)
    | _ => (false, cs)
  let ds := signed.2.takeWhile Char.isDigit
  let rest := (signed.2.dropWhile Char.isDigit).dropWhile isPySpace
  if ds.isEmpty || !rest.isEmpty then none
  else
    let n : Nat := ds.foldl (fun a c => a * 10 + (c.toNat - 48)) 0
    some (if signed.1 then -(n : Int) else (n : Int))

/-! ## Dictionary (Python `dict`) and set operations -/

/-- First-match association-list lookup (`dict.get` / `dict[...]`). -/
def slookup (k : String) : List (String × String) → Option String
  | [] => none
  | (k', v) :: rest => if k = k' then some v else slookup k rest

def dlookup (k : String) : List (String × Nat) → Option Nat
  | [] => none
  | (k', v) :: rest => if k = k' then some v else dlookup k rest

/-- Python dict assignment `d[k] = v`: replace the entry in place if the
key is present, else append at the end. -/
def sdictSet : List (String × String) → String → String → List (String × String)
  | [], k, v => [(k, v)]
  | (k', w) :: rest, k, v => if k' = k then (k, v) :: rest else (k', w) :: sdictSet rest k v

def ndictSet : List (String × Nat) → String → Nat → List (String × Nat)
  | [], k, v => [(k, v)]
  | (k', w) :: rest, k, v => if k' = k then (k, v) :: rest else (k', w) :: ndictSet rest k v

/-- Python `counts[k] += 1` (only the entry with key `k` is touched). -/
def incrCount : List (String × Nat) → String → List (String × Nat)
  | [], _ => []
  | (k', v) :: rest, k => (k', if k' = k then v + 1 else v) :: incrCount rest k

/-! ## POSIX path helpers (`os.path`) -/

/-- `str.split('/')` on character lists. -/
def splitOnSlash : List Char → List (List Char)
  | [] => [[]]
  | c :: rest =>
    let r := splitOnSlash rest
    if c = '/' then [] :: r
    else match r with
      | h :: t => (c :: h) :: t
      | [] => [[c]]

/-- `os.path.normpath` for POSIX paths. -/
def normpathPosix (p : String) : String :=
  if p = "" then "." else
  let initialSlashes : Nat :=
    if pyStartsWith p "/" then
      (if pyStartsWith p "//" && !pyStartsWith p "///" then 2 else 1)
    else 0
  let comps : List String := (splitOnSlash p.data).map (fun l => (⟨l⟩ : String))
  let newComps : List String := comps.foldl (fun acc comp =>
      if comp = "" || comp = "." then acc
      else if comp ≠ ".." || (initialSlashes = 0 ∧ acc = []) ||
              (acc ≠ [] ∧ acc.getLast? = some "..") then acc ++ [comp]
      else if acc ≠ [] then acc.dropLast
      else acc) []
  let joined := String.intercalate "/" newComps
  let out := (⟨List.replicate initialSlashes '/'⟩ : String) ++ joined
  if out = "" then "." else out

/-- `os.path.dirname` for POSIX paths. -/
def posixDirname (p : String) : String :=
  let revIdx := p.data.reverse.findIdx? (fun c => c = '/')
  match revIdx with
  | none => ""
  | some j =>
    let i := p.data.length - j     -- index one past the last '/'
    let head : String := ⟨p.data.take i⟩
    if head.data.all (fun c => c = '/') then head
    else ⟨(head.data.reverse.dropWhile (fun c => c = '/')).reverse⟩

/-- `os.path.join` for two POSIX path components. -/
def posixJoin (a b : String) : String :=
  if pyStartsWith b "/" then b
  else if a = "" || pyEndsWith a "/" then a ++ b
  else a ++ "/" ++ b

/-- `pathlib.Path(...).name`: last path component. -/
def basenameOf (p : String) : String := ⟨(p.data.reverse.takeWhile (fun c => c ≠ '/')).reverse⟩

/-- `pathlib.Path(...).stem`: name without its final suffix.  The suffix
starts at the last `.` provided that dot is neither the first nor the
last character of the name. -/
def stemOf (name : String) : String :=
  match name.data.reverse.findIdx? (fun c => c = '.') with
  | none => name
  | some j =>
    let i := name.data.length - 1 - j   -- index of the last '.'
    if 0 < i ∧ i < name.data.length - 1 then ⟨name.data.take i⟩ else name

/-! ## HTML escaping and URL encoding (`html.escape`, `urllib.parse.urlencode`) -/

/-- `html.escape`: the five sequential `str.replace` calls are equivalent
to this character-wise map because `&` is replaced first. -/
def htmlEscapeChar (quote : Bool) (c : Char) : String :=
  if c = '&' then "&amp;"
  else if c = '<' then "&lt;"
  else if c = '>' then "&gt;"
  else if quote && c = '"' then "&quot;"
  else if quote && c = Char.ofNat 39 then "&#x27;"
  else ⟨[c]⟩

/-- `html.escape(s)`: the default is `quote=True`, so `"` and `'` are
escaped too; the program never passes `quote=False` (the explicit
`quote=True` call sites coincide with the default). -/
def htmlEscape (s : String) : String := String.join (s.data.map (htmlEscapeChar true))

def hexDigitUpper (n : Nat) : Char :=
  if n < 10 then Char.ofNat (48 + n) else Char.ofNat (55 + n)

/-- UTF-8 bytes of one character. -/
def utf8Bytes (c : Char) : List Nat :=
  let n := c.toNat
  if n < 0x80 then [n]
  else if n < 0x800 then [0xC0 + n / 0x40, 0x80 + n % 0x40]
  else if n < 0x10000 then
    [0xE0 + n / 0x1000, 0x80 + (n / 0x40) % 0x40, 0x80 + n % 0x40]
  else
    [0xF0 + n / 0x40000, 0x80 + (n / 0x1000) % 0x40, 0x80 + (n / 0x40) % 0x40, 0x80 + n % 0x40]

/-- `urllib.parse.quote_plus` with the default safe set. -/
def quotePlusChar (c : Char) : String :=
  if c.isAlphanum || c ∈ ['_', '.', '-', '~'] then ⟨[c]⟩
  else if c = ' ' then "+"
  else String.join ((utf8Bytes c).map (fun b =>
    ⟨['%', hexDigitUpper (b / 16), hexDigitUpper (b % 16)]⟩))

def quotePlus (s : String) : String := String.join (s.data.map quotePlusChar)

/-- `urllib.parse.urlencode` over an ordered list of pairs. -/
def urlencode (params : List (String × String)) : String :=
  String.intercalate "&" (params.map (fun p => quotePlus p.1 ++ "=" ++ quotePlus p.2))

/-! ## Line-directive matchers (`TITLE_RE`, `ID_RE`, `CREATED_LINE_RE`) -/

/-- Consume a case-insensitive literal. -/
def afterCI : List Char → List Char → Option (List Char)
  | cs, [] => some cs
  | [], _ :: _ => none
  | c :: rest, l :: ls => if c.toLower = l.toLower then afterCI rest ls else none

/-- Group semantics of `\s*(.+?)\s*$` applied to the rest of a line: the
match exists iff the rest is non-empty; the group is the rest trimmed of
surrounding whitespace, except that an all-whitespace rest yields its
last character (the greedy leading `\s*` backtracks by exactly one). -/
def lazyGroupTrim (rest : List Char) : Option String :=
  if rest.isEmpty then none
  else
    let t := (rest.dropWhile isPySpace).reverse.dropWhile isPySpace |>.reverse
    if t.isEmpty then (rest.getLast?).map (fun c => (⟨[c]⟩ : String))
    else some ⟨t⟩

/-- `TITLE_RE = ^\s*#\+TITLE:\s*(.+?)\s*$` (ignorecase), via `re.match`. -/
def titleMatch (line : String) : Option String :=
  match line.data.dropWhile isPySpace with
  | '#' :: '+' :: rest =>
    match afterCI rest "TITLE".data with
    | some (':' :: r) => lazyGroupTrim r
    | _ => none
  | _ => none

/-- `ID_RE = ^\s*:ID:\s*(\S+)\s*$` (ignorecase), via `re.match`. -/
def idMatch (line : String) : Option String :=
  match line.data.dropWhile isPySpace with
  | ':' :: rest =>
    match afterCI rest "ID".data with
    | some (':' :: r) =>
      let r2 := r.dropWhile isPySpace
      let tok := r2.takeWhile (fun c => !isPySpace c)
      let r3 := r2.dropWhile (fun c => !isPySpace c)
      if tok.isEmpty || !r3.all isPySpace then none else some ⟨tok⟩
    | _ => none
  | _ => none

/-- `CREATED_LINE_RE = ^\s*(?:#\+)?CREATED:\s*(.+?)\s*$` (ignorecase),
via `re.match`.  If the line starts with `#+` the optional group must
consume it (backtracking to the empty alternative cannot succeed since
`C` never equals `#`). -/
def createdMatch (line : String) : Option String :=
  let cs := line.data.dropWhile isPySpace
  let cs2 := match cs with
    | '#' :: '+' :: rest => rest
    | _ => cs
  match afterCI cs2 "CREATED".data with
  | some (':' :: r) => lazyGroupTrim r
  | _ => none

/-! ## Timestamp pattern (`ORG_TIMESTAMP_RE`) -/

/-- Captured groups of
`[\[<](\d{4})-(\d{2})-(\d{2})(?:\s+\w{3})?(?:\s+(\d{2}):(\d{2}))?[\]>]`. -/
structure TsMatch where
  g1 : String
  g2 : String
  g3 : String
  g4 : Option String
  g5 : Option String
deriving DecidableEq

/-- Exactly `n` digits. -/
def digitsN (cs : List Char) (n : Nat) : Option (List Char × List Char) :=
  let ds := cs.take n
  if ds.length = n && ds.all Char.isDigit then some (ds, cs.drop n) else none

/-- `\s+` (greedy; the following atoms never match whitespace, so no
backtracking into the run is possible). -/
def skipWs1 (cs : List Char) : Option (List Char) :=
  let r := cs.dropWhile isPySpace
  if r.length < cs.length then some r else none

def isWordChar (c : Char) : Bool := c.isAlphanum || c = '_'

def isTsCloser : List Char → Bool
  | c :: _ => c = ']' || c = '>'
  | [] => false

/-- `(?:\s+(\d{2}):(\d{2}))?` followed by the closing bracket, with the
optional group tried first (greedy) and dropped on failure. -/
def tsFinish (l : List Char) : Option (Option String × Option String) :=
  let time : Option (List Char × List Char × List Char) :=
    match skipWs1 l with
    | some l1 =>
      match digitsN l1 2 with
      | some (h, l2) =>
        match l2 with
        | ':' :: l3 =>
          match digitsN l3 2 with
          | some (mi, l4) => some (h, mi, l4)
          | none => none
        | _ => none
      | none => none
    | none => none
  match time with
  | some (h, mi, l4) =>
    if isTsCloser l4 then some (some ⟨h⟩, some ⟨mi⟩)
    else if isTsCloser l then some (none, none) else none
  | none => if isTsCloser l then some (none, none) else none

/-- Attempt the timestamp pattern anchored at the head of `cs`. -/
def tryTsAt (cs : List Char) : Option TsMatch :=
  match cs with
  | o :: rest =>
    if o = '[' || o = '<' then
      match digitsN rest 4 with
      | some (y, r1) =>
        match r1 with
        | '-' :: r2 =>
          match digitsN r2 2 with
          | some (mo, r3) =>
            match r3 with
            | '-' :: r4 =>
              match digitsN r4 2 with
              | some (d, r5) =>
                -- optional day-of-week `(?:\s+\w{3})?`, greedy with backtracking
                let afterDow : Option (List Char) :=
                  match skipWs1 r5 with
                  | some l1 =>
                    let w := l1.take 3
                    if w.length = 3 && w.all isWordChar then some (l1.drop 3) else none
                  | none => none
                let gs : Option (Option String × Option String) :=
                  match afterDow with
                  | some l =>
                    match tsFinish l with
                    | some r => some r
                    | none => tsFinish r5
                  | none => tsFinish r5
                gs.map (fun p => ⟨⟨y⟩, ⟨mo⟩, ⟨d⟩, p.1, p.2⟩)
              | none => none
            | _ => none
          | none => none
        | _ => none
      | none => none
    else none
  | [] => none

def tsSearchAux : List Char → Option TsMatch
  | [] => none
  | c :: rest =>
    match tryTsAt (c :: rest) with
    | some m => some m
    | none => tsSearchAux rest

/-- `ORG_TIMESTAMP_RE.search`: leftmost match anywhere in the string. -/
def tsSearch (s : String) : Option TsMatch := tsSearchAux s.data

/-! ## Org link pattern (`ORG_LINK_RE`) and URL pattern (`URL_RE`) -/

structure OrgLinkMatch where
  start : Nat
  stop : Nat
  target : String
  label : Option String
  whole : String
deriving DecidableEq

/-- Attempt `\[\[([^\]]+)\](?:\[([^\]]*)\])?\]` anchored at the head:
group 1 is the greedy run of non-`]` characters (deterministic since it
is followed by a literal `]`); the optional labelled part is tried
first and on failure the engine falls back to the plain `[[t]]` form. -/
def tryOrgLink (cs : List Char) : Option (String × Option String × Nat) :=
  match cs with
  | '[' :: '[' :: rest =>
    let tgt := rest.takeWhile (fun c => c ≠ ']')
    let rest2 := rest.dropWhile (fun c => c ≠ ']')
    if tgt.isEmpty then none
    else
      match rest2 with
      | ']' :: rest3 =>
        let noLabel : Option (String × Option String × Nat) :=
          match rest3 with
          | ']' :: _ => some (⟨tgt⟩, none, tgt.length + 4)
          | _ => none
        (match rest3 with
         | '[' :: rest4 =>
           let lbl := rest4.takeWhile (fun c => c ≠ ']')
           let rest5 := rest4.dropWhile (fun c => c ≠ ']')
           match rest5 with
           | ']' :: ']' :: _ => some (⟨tgt⟩, some ⟨lbl⟩, tgt.length + lbl.length + 6)
           | _ => noLabel
         | _ => noLabel)
      | _ => none
  | _ => none

/-- `finditer` loop: at each position try the anchored match; on success
continue after the match (non-overlapping), else advance one character.
Fuel is the remaining length, enough since every step consumes at least
one character. -/
def orgLinkScan : Nat → List Char → Nat → List OrgLinkMatch
  | 0, _, _ => []
  | _ + 1, [], _ => []
  | fuel + 1, c :: rest, pos =>
    match tryOrgLink (c :: rest) with
    | some (t, l, len) =>
      ⟨pos, pos + len, t, l, ⟨(c :: rest).take len⟩⟩ ::
        orgLinkScan fuel (rest.drop (len - 1)) (pos + len)
    | none => orgLinkScan fuel rest (pos + 1)

def orgLinkFinditer (s : String) : List OrgLinkMatch :=
  orgLinkScan (s.data.length + 1) s.data 0

structure UrlMatch where
  start : Nat
  stop : Nat
  str : String
deriving DecidableEq

/-- The character class `[^\s<>'\"()\[\]]`. -/
def urlCharOk (c : Char) : Bool :=
  !(isPySpace c || c ∈ ['<', '>', Char.ofNat 39, '"', '(', ')', '[', ']'])

/-- Attempt `https?://[^\s<>'\"()\[\]]+` anchored at the head; the
optional `s` is tried first. -/
def tryUrl (cs : List Char) : Option Nat :=
  let tryScheme : List Char → Option Nat := fun scheme =>
    if scheme.isPrefixOf cs then
      let run := (cs.drop scheme.length).takeWhile urlCharOk
      if run.isEmpty then none else some (scheme.length + run.length)
    else none
  match tryScheme "https://".data with
  | some n => some n
  | none => tryScheme "http://".data

def urlScan : Nat → List Char → Nat → List UrlMatch
  | 0, _, _ => []
  | _ + 1, [], _ => []
  | fuel + 1, c :: rest, pos =>
    match tryUrl (c :: rest) with
    | some len =>
      ⟨pos, pos + len, ⟨(c :: rest).take len⟩⟩ :: urlScan fuel (rest.drop (len - 1)) (pos + len)
    | none => urlScan fuel rest (pos + 1)

def urlFinditer (s : String) : List UrlMatch :=
  urlScan (s.data.length + 1) s.data 0

/-! ## Stable sort (Python `list.sort` / `sorted` are stable) -/

/-- Insert after every element `y` with `le y x`, keeping ties stable. -/
def insertSorted (le : α → α → Bool) (x : α) : List α → List α
  | [] => [x]
  | y :: ys => if le y x then y :: insertSorted le x ys else x :: y :: ys

def pySort (le : α → α → Bool) (l : List α) : List α :=
  l.foldl (fun acc x => insertSorted le x acc) []

/-- Lexicographic `<` on character lists: Python string comparison. -/
def charListLt : List Char → List Char → Bool
  | [], [] => false
  | [], _ :: _ => true
  | _ :: _, [] => false
  | a :: as, b :: bs => if a < b then true else if b < a then false else charListLt as bs

def strLtB (a b : String) : Bool := charListLt a.data b.data

def strLeB (a b : String) : Bool := strLtB a b || a == b

/-! ## Data model (`OrgFile`) and metadata extraction -/

structure OrgFile where
  path : String
  relative_path : String
  title : String
  file_id : Option String
  content : String
deriving DecidableEq

/-- `extract_org_title`. -/
def extract_org_title (content fallback : String) : String :=
  match (pySplitlines content).findSome? (fun line => (titleMatch line).map pyStrip) with
  | some t => t
  | none => fallback

/-- `extract_org_id`. -/
def extract_org_id (content : String) : Option String :=
  (pySplitlines content).findSome? (fun line => (idMatch line).map pyStrip)

/-- `normalize_relative_path`: `os.path.normpath` on the slash-normalized
value, `"."` becomes `""`, then `lstrip("./")` (which drops every
leading `.` or `/` character — `lstrip` takes a character set). -/
def normalize_relative_path (path_value : String) : String :=
  let normalized := normpathPosix ⟨path_value.data.map (fun c => if c = '\\' then '/' else c)⟩
  if normalized = "." then "" else pyLstripChars normalized ['.', '/']

/-- `extract_org_link_targets`. -/
def extract_org_link_targets (content : String) : List String :=
  (orgLinkFinditer content).map (fun m => pyStrip m.target)

/-! ## Link resolution (`resolve_link_target`) -/

/-- The two fragment-stripping steps (`::fragment`, then `#fragment`). -/
def fragStrip (target : String) : String :=
  let t1 := if pyContainsSub target "::" then beforeSub target "::" else target
  if pyContainsChar t1 '#' then beforeSub t1 "#" else t1

/-- The scheme chain: `file:` is stripped; `://` and unrecognized
`scheme:` targets (a colon without a `.org` suffix) are rejected. -/
def schemeFilter (target : String) : Option String :=
  if pyStartsWith target "file:" then some (pyDrop target 5)
  else if pyContainsSub target "://" then none
  else if pyContainsChar target ':' && !pyEndsWith target ".org" then none
  else some target

/-- Candidate construction: absolute targets are normalized against the
corpus root, relative ones against the source note's directory. -/
def pathCandidate (source_relative_path target : String) : String :=
  if pyStartsWith target "/" then normalize_relative_path (pyLstripChars target ['/'])
  else normalize_relative_path (posixJoin (posixDirname source_relative_path) target)

/-- The final membership checks: exact match, else the `.org`-suffixed
fallback when the candidate does not already end in `.org`. -/
def pathLookup (known_paths : List String) (candidate : String) : Option String :=
  if candidate = "" then none
  else if candidate ∈ known_paths then some candidate
  else if !pyEndsWith candidate ".org" then
    if (candidate ++ ".org") ∈ known_paths then some (candidate ++ ".org") else none
  else none

/-- `resolve_link_target`.  The Python local variable `target` is rebound
step by step; here each stage is a named function of the previous one. -/
def resolve_link_target (source_relative_path raw_target : String)
    (known_paths : List String) (id_to_path : List (String × String)) : Option String :=
  if pyStrip raw_target = "" then none
  else if pyStartsWith (pyToLower (fragStrip (pyStrip raw_target))) "id:" then
    slookup (pyToLower (pyStrip (pyDrop (fragStrip (pyStrip raw_target)) 3))) id_to_path
  else
    match schemeFilter (fragStrip (pyStrip raw_target)) with
    | none => none
    | some t => pathLookup known_paths (pathCandidate source_relative_path t)

/-! ## Corpus scan (`scan_org_files`) -/

/-- `scan_org_files`, with the filesystem walk abstracted as the list of
`(path relative to the base directory, file content)` pairs that
`os.walk` yields (directory pruning happens before this list exists).
Matching files become `OrgFile` records and are sorted by
lower-cased relative path, stably, as `list.sort` does. -/
def scan_org_files (walked : List (String × String)) : List OrgFile :=
  let files := (walked.filter (fun e => pyEndsWith (pyToLower (basenameOf e.1)) ".org")).map
    (fun e =>
      { path := e.1
        relative_path := normalize_relative_path e.1
        title := extract_org_title e.2 (stemOf (basenameOf e.1))
        file_id := extract_org_id e.2
        content := e.2 })
  pySort (fun a b => strLeB (pyToLower a.relative_path) (pyToLower b.relative_path)) files

/-- The identifier index `{f.file_id.lower(): f.relative_path for f in
files if f.file_id}` (the guard is Python truthiness, so an empty id is
skipped; later duplicates overwrite earlier ones). -/
def build_id_to_path (files : List OrgFile) : List (String × String) :=
  files.foldl (fun d f =>
    match f.file_id with
    | some i => if i = "" then d else sdictSet d (pyToLower i) f.relative_path
    | none => d) []

/-! ## Backlinks (`find_backlinks`, `build_backlink_counts`) -/

def backlinkLe (a b : OrgFile) : Bool :=
  strLtB (pyToLower a.title) (pyToLower b.title) ||
    (pyToLower a.title == pyToLower b.title &&
      strLeB (pyToLower a.relative_path) (pyToLower b.relative_path))

/-- The set `{f.relative_path for f in files}` (as a list; only
membership is ever used). -/
def corpusKnownPaths (files : List OrgFile) : List String :=
  files.map (fun f => f.relative_path)

/-- One source note of `find_backlinks`' outer loop.  The inner Python
loop appends the source and breaks at the first raw target resolving to
the selected path, provided the source's path was not already seen;
since `seen_sources` does not change while one source is scanned, this
is: append iff some target resolves to the selected path and the source
is unseen. -/
def fbStep (known_paths : List String) (id_to_path : List (String × String))
    (selected_path : String) (st : List OrgFile × List String) (source : OrgFile) :
    List OrgFile × List String :=
  if source.relative_path = selected_path then st
  else if (extract_org_link_targets source.content).any
            (fun raw => decide (resolve_link_target source.relative_path raw
                known_paths id_to_path = some selected_path))
          && !decide (source.relative_path ∈ st.2)
  then (st.1 ++ [source], st.2 ++ [source.relative_path])
  else st

/-- `find_backlinks`. -/
def find_backlinks (org_files : List OrgFile) (selected_path : String) : List OrgFile :=
  pySort backlinkLe
    (org_files.foldl
      (fbStep (corpusKnownPaths org_files) (build_id_to_path org_files) selected_path)
      ([], [])).1

/-- One raw target of `build_backlink_counts`' inner loop: skip when the
resolution is falsy (None or `""`), a self reference, or already seen;
otherwise count it if it is a key of the counts dict. -/
def countTargetStep (known_paths : List String) (id_to_path : List (String × String))
    (src_rel : String) (st : List (String × Nat) × List String) (raw : String) :
    List (String × Nat) × List String :=
  match resolve_link_target src_rel raw known_paths id_to_path with
  | none => st
  | some r =>
    if r = "" ∨ r = src_rel ∨ r ∈ st.2 then st
    else if (dlookup r st.1).isSome then (incrCount st.1 r, r :: st.2)
    else st

/-- All raw targets of one source note, with a fresh `seen_targets`. -/
def processSource (known_paths : List String) (id_to_path : List (String × String))
    (counts : List (String × Nat)) (source : OrgFile) : List (String × Nat) :=
  ((extract_org_link_targets source.content).foldl
    (countTargetStep known_paths id_to_path source.relative_path) (counts, [])).1

/-- `build_backlink_counts`. -/
def build_backlink_counts (org_files : List OrgFile) : List (String × Nat) :=
  org_files.foldl
    (processSource (corpusKnownPaths org_files) (build_id_to_path org_files))
    (org_files.foldl (fun c f => ndictSet c f.relative_path 0) [])

/-! ## Creation sort key (`extract_created_sort_key`) -/

def orgSortKey (y mo d h mi : Int) : Int :=
  y * 100000000 + mo * 1000000 + d * 10000 + h * 100 + mi

/-- `_timestamp_match_to_sort_key`: `int()` of each captured group, the
`try/except ValueError` becoming the `none` branch. -/
def _timestamp_match_to_sort_key (m : TsMatch) : Option Int :=
  match pyInt m.g1, pyInt m.g2, pyInt m.g3, pyInt (m.g4.getD "0"), pyInt (m.g5.getD "0") with
  | some y, some mo, some d, some h, some mi => some (orgSortKey y mo d h mi)
  | _, _, _, _, _ => none

/-- The key one line contributes: a `CREATED` directive whose value
contains a timestamp yielding a key. -/
def createdKeyOfLine (line : String) : Option Int :=
  match createdMatch line with
  | some v =>
    match tsSearch v with
    | some m => _timestamp_match_to_sort_key m
    | none => none
  | none => none

/-- `extract_created_sort_key`. -/
def extract_created_sort_key (content : String) : Option Int :=
  match (pySplitlines content).findSome? createdKeyOfLine with
  | some k => some k
  | none =>
    match tsSearch content with
    | some m => _timestamp_match_to_sort_key m
    | none => none

/-! ## Renderer (`render_org_to_html` and helpers) -/

/-- `note_href`. -/
def note_href (relative_path : String) (edit_mode : Bool) : String :=
  "/?" ++ urlencode ([("file", relative_path)] ++ if edit_mode then [("edit", "1")] else [])

/-- `render_plain_text_with_links`: escape everything, wrapping each URL
match in an external anchor. -/
def render_plain_text_with_links (text : String) : String :=
  let step := (urlFinditer text).foldl (fun (st : String × Nat) m =>
    let before := if st.2 < m.start then htmlEscape (pySlice text st.2 m.start) else ""
    let safe_url := htmlEscape m.str
    (st.1 ++ before ++ "<a class=\x27org-link\x27 href=\x27" ++ safe_url ++
      "\x27 target=\x27_blank\x27 rel=\x27noopener noreferrer\x27>" ++ safe_url ++ "</a>",
     m.stop)) ("", 0)
  if step.2 < text.length then step.1 ++ htmlEscape (pySlice text step.2 text.length)
  else step.1

/-- `render_line_with_links`: rewrite each org-link match (resolved
targets become internal anchors, Python truthiness making an empty
resolved path fall back to the literal text), everything else going
through the URL highlighter. -/
def render_line_with_links (line source_relative_path : String)
    (known_paths : List String) (id_to_path : List (String × String)) : String :=
  let step := (orgLinkFinditer line).foldl (fun (st : String × Nat) m =>
    let before := if st.2 < m.start then render_plain_text_with_links (pySlice line st.2 m.start)
                  else ""
    let raw_target := pyStrip m.target
    let label := pyStrip (m.label.getD "")
    let piece :=
      match resolve_link_target source_relative_path raw_target known_paths id_to_path with
      | some resolved =>
        if resolved = "" then render_plain_text_with_links m.whole
        else
          let safe_href := htmlEscape (note_href resolved false)
          let link_text := if label ≠ "" then label else raw_target
          "<a class=\x27org-link\x27 href=\x27" ++ safe_href ++ "\x27>" ++
            htmlEscape link_text ++ "</a>"
      | none => render_plain_text_with_links m.whole
    (st.1 ++ before ++ piece, m.stop)) ("", 0)
  if step.2 < line.length then step.1 ++ render_plain_text_with_links (pySlice line step.2 line.length)
  else step.1

/-- The line after `rstrip("\n")` and `lstrip()`. -/
def lineStripped (raw_line : String) : String := pyLstrip (pyRstripChars raw_line ['\n'])

/-- `len(stripped) - len(stripped.lstrip("*"))`. -/
def headingStars (raw_line : String) : Nat :=
  (lineStripped raw_line).length - (pyLstripChars (lineStripped raw_line) ['*']).length

/-- The body of `render_org_to_html`'s per-line loop.  The Python code
nests `if stripped.startswith("*")` around the star/space test and
falls through to the paragraph cases when the inner test fails; the
flattened conditional below has identical behaviour. -/
def render_org_line (raw_line source_relative_path : String)
    (known_paths : List String) (id_to_path : List (String × String)) : String :=
  let line := pyRstripChars raw_line ['\n']
  let stripped := lineStripped raw_line
  let stars := headingStars raw_line
  if pyStartsWith stripped "*" && decide (0 < stars) && decide (stars < stripped.length) &&
      (stripped.data.get? stars == some ' ')
  then
    "<h" ++ toString (min (stars + 1) 6) ++ ">" ++ htmlEscape (pyDrop stripped (stars + 1)) ++
      "</h" ++ toString (min (stars + 1) 6) ++ ">"
  else if stripped = "" then "<div class=\x27spacer\x27></div>"
  else "<p>" ++ render_line_with_links line source_relative_path known_paths id_to_path ++ "</p>"

/-- `render_org_to_html`. -/
def render_org_to_html (content source_relative_path : String)
    (known_paths : List String) (id_to_path : List (String × String)) : String :=
  joinWith "\n" ((pySplitlines content).map
    (fun raw_line => render_org_line raw_line source_relative_path known_paths id_to_path))

/-! ## Lemmas: association-list lookup -/

theorem strData_eq {a b : String} (h : a.data = b.data) : a = b := by
  cases a
  cases b
  exact congrArg String.mk h

theorem dlookup_incrCount (d : List (String × Nat)) (k t : String) :
    dlookup t (incrCount d k) = if t = k then (dlookup t d).map (· + 1) else dlookup t d := by
  induction d with
  | nil => rcases eq_or_ne t k with ht | ht <;> simp [incrCount, dlookup, ht]
  | cons p d ih =>
    obtain ⟨k', v⟩ := p
    rcases eq_or_ne k' k with hk' | hk'
    · subst hk'
      rcases eq_or_ne t k' with ht | ht
      · subst ht
        simp [incrCount, dlookup]
      · simp [incrCount, dlookup, ht, ih]
    · rcases eq_or_ne t k' with ht | ht
      · subst ht
        simp [incrCount, dlookup, hk']
      · simp [incrCount, dlookup, hk', ht, ih]

theorem dlookup_ndictSet (d : List (String × Nat)) (k t : String) (v : Nat) :
    dlookup t (ndictSet d k v) = if t = k then some v else dlookup t d := by
  induction d with
  | nil => rcases eq_or_ne t k with ht | ht <;> simp [ndictSet, dlookup, ht]
  | cons p d ih =>
    obtain ⟨k', w⟩ := p
    rcases eq_or_ne k' k with hk' | hk'
    · subst hk'
      rcases eq_or_ne t k' with ht | ht
      · subst ht
        simp [ndictSet, dlookup]
      · simp [ndictSet, dlookup, ht]
    · rcases eq_or_ne t k' with ht | ht
      · subst ht
        simp [ndictSet, dlookup, hk', Ne.symm hk']
      · simp [ndictSet, dlookup, hk', ht, ih]

/-! ## Lemmas: lexicographic order on strings -/

theorem charListLt_trans :
    ∀ a b c : List Char, charListLt a b = true → charListLt b c = true → charListLt a c = true := by
  intro a
  induction a with
  | nil =>
    intro b c h1 h2
    cases b with
    | nil => simp [charListLt] at h1
    | cons y ys =>
      cases c with
      | nil => simp [charListLt] at h2
      | cons z zs => simp [charListLt]
  | cons x xs ih =>
    intro b c h1 h2
    cases b with
    | nil => simp [charListLt] at h1
    | cons y ys =>
      cases c with
      | nil => simp [charListLt] at h2
      | cons z zs =>
        simp only [charListLt] at h1 h2 ⊢
        by_cases hxy : x < y
        · by_cases hyz : y < z
          · simp [lt_trans hxy hyz]
          · by_cases hzy : z < y
            · simp [hyz, hzy] at h2
            · have : y = z := le_antisymm (not_lt.mp hzy) (not_lt.mp hyz)
              subst this
              simp [hxy]
        · by_cases hyx : y < x
          · simp [hxy, hyx] at h1
          · have hx : x = y := le_antisymm (not_lt.mp hyx) (not_lt.mp hxy)
            subst hx
            simp [lt_irrefl] at h1
            by_cases hyz : x < z
            · simp [hyz]
            · by_cases hzy : z < x
              · simp [hyz, hzy] at h2
              · have : x = z := le_antisymm (not_lt.mp hzy) (not_lt.mp hyz)
                subst this
                simp [lt_irrefl] at h2 ⊢
                exact ih ys zs h1 h2

theorem charListLt_connex :
    ∀ a b : List Char, charListLt a b = false → charListLt b a = false → a = b := by
  intro a
  induction a with
  | nil =>
    intro b h1 _
    cases b with
    | nil => rfl
    | cons y ys => simp [charListLt] at h1
  | cons x xs ih =>
    intro b h1 h2
    cases b with
    | nil => simp [charListLt] at h2
    | cons y ys =>
      simp only [charListLt] at h1 h2
      by_cases hxy : x < y
      · simp [hxy] at h1
      · by_cases hyx : y < x
        · simp [hxy, hyx] at h2
        · have hx : x = y := le_antisymm (not_lt.mp hyx) (not_lt.mp hxy)
          subst hx
          simp [lt_irrefl] at h1 h2
          rw [ih ys h1 h2]

theorem strLeB_trans (a b c : String) (h1 : strLeB a b = true) (h2 : strLeB b c = true) :
    strLeB a c = true := by
  rcases Bool.or_eq_true_iff.mp h1 with hab | hab
  · rcases Bool.or_eq_true_iff.mp h2 with hbc | hbc
    · exact Bool.or_eq_true_iff.mpr (Or.inl (charListLt_trans _ _ _ hab hbc))
    · have : b = c := by simpa using hbc
      subst this
      exact Bool.or_eq_true_iff.mpr (Or.inl hab)
  · have : a = b := by simpa using hab
    subst this
    exact h2

theorem strLeB_total (a b : String) (h : strLeB a b = false) : strLeB b a = true := by
  have hab : strLtB a b = false := by
    cases hx : strLtB a b <;> simp [strLeB, hx] at h ⊢
  have hne : a ≠ b := by
    intro he
    subst he
    simp [strLeB] at h
  by_cases hba : strLtB b a = true
  · simp [strLeB, hba]
  · exact absurd (strData_eq (charListLt_connex _ _ hab (Bool.eq_false_iff.mpr hba))) hne

theorem backlinkLe_trans (a b c : OrgFile) (h1 : backlinkLe a b = true)
    (h2 : backlinkLe b c = true) : backlinkLe a c = true := by
  unfold backlinkLe at h1 h2 ⊢
  rcases Bool.or_eq_true_iff.mp h1 with hab | hab
  · rcases Bool.or_eq_true_iff.mp h2 with hbc | hbc
    · exact Bool.or_eq_true_iff.mpr (Or.inl (charListLt_trans _ _ _ hab hbc))
    · have he : pyToLower b.title = pyToLower c.title := by
        simpa using (Bool.and_eq_true_iff.mp hbc).1
      rw [← he]
      exact Bool.or_eq_true_iff.mpr (Or.inl hab)
  · have he : pyToLower a.title = pyToLower b.title := by
      simpa using (Bool.and_eq_true_iff.mp hab).1
    rcases Bool.or_eq_true_iff.mp h2 with hbc | hbc
    · rw [he]
      exact Bool.or_eq_true_iff.mpr (Or.inl hbc)
    · have he2 : pyToLower b.title = pyToLower c.title := by
        simpa using (Bool.and_eq_true_iff.mp hbc).1
      refine Bool.or_eq_true_iff.mpr (Or.inr (Bool.and_eq_true_iff.mpr ⟨by simp [he, he2], ?_⟩))
      exact strLeB_trans _ _ _ (Bool.and_eq_true_iff.mp hab).2 (Bool.and_eq_true_iff.mp hbc).2

theorem backlinkLe_total (a b : OrgFile) (h : backlinkLe a b = false) : backlinkLe b a = true := by
  unfold backlinkLe at h ⊢
  have hlt : strLtB (pyToLower a.title) (pyToLower b.title) = false := by
    cases hx : strLtB (pyToLower a.title) (pyToLower b.title) <;> simp [hx] at h ⊢
  by_cases heq : pyToLower a.title = pyToLower b.title
  · have hle : strLeB (pyToLower a.relative_path) (pyToLower b.relative_path) = false := by
      cases hx : strLeB (pyToLower a.relative_path) (pyToLower b.relative_path)
      · rfl
      · simp [hx, heq] at h
    refine Bool.or_eq_true_iff.mpr (Or.inr (Bool.and_eq_true_iff.mpr ⟨by simp [heq], ?_⟩))
    exact strLeB_total _ _ hle
  · have : strLtB (pyToLower b.title) (pyToLower a.title) = true := by
      by_cases hba : strLtB (pyToLower b.title) (pyToLower a.title) = true
      · exact hba
      · exact absurd (strData_eq (charListLt_connex _ _ hlt (Bool.eq_false_iff.mpr hba))) heq
    exact Bool.or_eq_true_iff.mpr (Or.inl this)

/-! ## Lemmas: stable insertion sort -/

theorem insertSorted_perm (le : α → α → Bool) (x : α) :
    ∀ l : List α, (insertSorted le x l).Perm (x :: l) := by
  intro l
  induction l with
  | nil => exact List.Perm.refl _
  | cons y ys ih =>
    unfold insertSorted
    by_cases h : le y x = true
    · rw [if_pos h]
      exact (ih.cons y).trans (List.Perm.swap x y ys)
    · rw [if_neg h]

theorem pySort_perm (le : α → α → Bool) (l : List α) : (pySort le l).Perm l := by
  have key : ∀ (l acc : List α),
      (l.foldl (fun acc x => insertSorted le x acc) acc).Perm (acc ++ l) := by
    intro l
    induction l with
    | nil => intro acc; simp
    | cons x xs ih =>
      intro acc
      have h1 := ih (insertSorted le x acc)
      have h2 : (insertSorted le x acc ++ xs).Perm ((x :: acc) ++ xs) :=
        (insertSorted_perm le x acc).append_right xs
      have h3 : ((x :: acc) ++ xs).Perm (acc ++ x :: xs) := by
        simpa using List.perm_middle.symm
      exact (h1.trans h2).trans h3
  simpa using key l []

theorem insertSorted_pairwise (le : α → α → Bool)
    (htrans : ∀ a b c, le a b = true → le b c = true → le a c = true)
    (htot : ∀ a b, le a b = false → le b a = true) :
    ∀ (l : List α) (x : α), l.Pairwise (fun a b => le a b = true) →
      (insertSorted le x l).Pairwise (fun a b => le a b = true) := by
  intro l
  induction l with
  | nil => intro x _; simp [insertSorted]
  | cons y ys ih =>
    intro x h
    rw [List.pairwise_cons] at h
    obtain ⟨hy, hys⟩ := h
    unfold insertSorted
    by_cases hle : le y x = true
    · rw [if_pos hle]
      rw [List.pairwise_cons]
      refine ⟨?_, ih x hys⟩
      intro b hb
      have hb' : b ∈ x :: ys := (insertSorted_perm le x ys).mem_iff.mp hb
      rcases List.mem_cons.mp hb' with hbx | hbys
      · subst hbx
        exact hle
      · exact hy b hbys
    · rw [if_neg hle]
      have hxy : le x y = true := htot y x (Bool.eq_false_iff.mpr hle)
      rw [List.pairwise_cons]
      refine ⟨?_, List.pairwise_cons.mpr ⟨hy, hys⟩⟩
      intro b hb
      rcases List.mem_cons.mp hb with hbx | hbys
      · subst hbx
        exact hxy
      · exact htrans x y b hxy (hy b hbys)

theorem pySort_pairwise (le : α → α → Bool)
    (htrans : ∀ a b c, le a b = true → le b c = true → le a c = true)
    (htot : ∀ a b, le a b = false → le b a = true) (l : List α) :
    (pySort le l).Pairwise (fun a b => le a b = true) := by
  have key : ∀ (l acc : List α), acc.Pairwise (fun a b => le a b = true) →
      (l.foldl (fun acc x => insertSorted le x acc) acc).Pairwise (fun a b => le a b = true) := by
    intro l
    induction l with
    | nil => intro acc h; simpa using h
    | cons x xs ih =>
      intro acc h
      exact ih _ (insertSorted_pairwise le htrans htot acc x h)
  exact key l [] (by simp)

/-! ## Lemmas: backlink counting -/

theorem countTarget_fold_lookup (known : List String) (idx : List (String × String))
    (srcRel : String) :
    ∀ (raws : List String) (counts : List (String × Nat)) (seen : List String) (t : String),
    dlookup t ((raws.foldl (countTargetStep known idx srcRel) (counts, seen)).1)
      = if t ∉ seen ∧ t ≠ "" ∧ t ≠ srcRel ∧
           (∃ raw ∈ raws, resolve_link_target srcRel raw known idx = some t)
        then (dlookup t counts).map (· + 1) else dlookup t counts := by
  intro raws
  induction raws with
  | nil =>
    intro counts seen t
    simp
  | cons raw raws ih =>
    intro counts seen t
    simp only [List.foldl_cons]
    cases hres : resolve_link_target srcRel raw known idx with
    | none =>
      have hstep : countTargetStep known idx srcRel (counts, seen) raw = (counts, seen) := by
        simp [countTargetStep, hres]
      rw [hstep, ih]
      refine if_congr ?_ rfl rfl
      constructor
      · rintro ⟨h1, h2, h3, raw', hraw', h4⟩
        exact ⟨h1, h2, h3, raw', List.mem_cons_of_mem _ hraw', h4⟩
      · rintro ⟨h1, h2, h3, raw', hraw', h4⟩
        rcases List.mem_cons.mp hraw' with hx | hx
        · subst hx
          rw [hres] at h4
          exact absurd h4 (by simp)
        · exact ⟨h1, h2, h3, raw', hx, h4⟩
    | some r =>
      by_cases hskip : r = "" ∨ r = srcRel ∨ r ∈ seen
      · have hstep : countTargetStep known idx srcRel (counts, seen) raw = (counts, seen) := by
          simp only [countTargetStep, hres]
          rw [if_pos hskip]
        rw [hstep, ih]
        rcases eq_or_ne r t with hrt | hrt
        · subst hrt
          have hno : ¬(r ∉ seen ∧ r ≠ "" ∧ r ≠ srcRel ∧
              (∃ raw' ∈ raws, resolve_link_target srcRel raw' known idx = some r)) := by
            rintro ⟨h1, h2, h3, _⟩
            rcases hskip with h | h | h
            · exact h2 h
            · exact h3 h
            · exact h1 h
          have hno' : ¬(r ∉ seen ∧ r ≠ "" ∧ r ≠ srcRel ∧
              (∃ raw' ∈ raw :: raws, resolve_link_target srcRel raw' known idx = some r)) := by
            rintro ⟨h1, h2, h3, _⟩
            rcases hskip with h | h | h
            · exact h2 h
            · exact h3 h
            · exact h1 h
          rw [if_neg hno, if_neg hno']
        · refine if_congr ?_ rfl rfl
          constructor
          · rintro ⟨h1, h2, h3, raw', hraw', h4⟩
            exact ⟨h1, h2, h3, raw', List.mem_cons_of_mem _ hraw', h4⟩
          · rintro ⟨h1, h2, h3, raw', hraw', h4⟩
            rcases List.mem_cons.mp hraw' with hx | hx
            · subst hx
              rw [hres] at h4
              exact absurd (Option.some_injective _ h4) hrt
            · exact ⟨h1, h2, h3, raw', hx, h4⟩
      · push_neg at hskip
        obtain ⟨hr1, hr2, hr3⟩ := hskip
        by_cases hsome : (dlookup r counts).isSome
        · have hstep : countTargetStep known idx srcRel (counts, seen) raw
              = (incrCount counts r, r :: seen) := by
            simp only [countTargetStep, hres]
            rw [if_neg (by tauto), if_pos hsome]
          rw [hstep, ih]
          rcases eq_or_ne t r with htr | htr
          · subst htr
            have hc2 : ¬(t ∉ (t :: seen) ∧ t ≠ "" ∧ t ≠ srcRel ∧
                (∃ raw' ∈ raws, resolve_link_target srcRel raw' known idx = some t)) := by
              rintro ⟨h1, _⟩
              exact h1 (List.mem_cons_self t seen)
            rw [if_neg hc2, dlookup_incrCount, if_pos rfl]
            have hcpos : t ∉ seen ∧ t ≠ "" ∧ t ≠ srcRel ∧
                (∃ raw' ∈ raw :: raws, resolve_link_target srcRel raw' known idx = some t) :=
              ⟨hr3, hr1, hr2, raw, List.mem_cons_self raw raws, hres⟩
            rw [if_pos hcpos]
          · rw [dlookup_incrCount, if_neg htr]
            refine if_congr ?_ rfl rfl
            constructor
            · rintro ⟨h1, h2, h3, raw', hraw', h4⟩
              refine ⟨fun hx => h1 (List.mem_cons_of_mem _ hx), h2, h3,
                raw', List.mem_cons_of_mem _ hraw', h4⟩
            · rintro ⟨h1, h2, h3, raw', hraw', h4⟩
              have h1' : t ∉ r :: seen := by
                intro hx
                rcases List.mem_cons.mp hx with hx | hx
                · exact htr hx
                · exact h1 hx
              rcases List.mem_cons.mp hraw' with hx | hx
              · subst hx
                rw [hres] at h4
                exact absurd (Option.some_injective _ h4).symm htr
              · exact ⟨h1', h2, h3, raw', hx, h4⟩
        · have hstep : countTargetStep known idx srcRel (counts, seen) raw = (counts, seen) := by
            simp only [countTargetStep, hres]
            rw [if_neg (by tauto), if_neg hsome]
          rw [hstep, ih]
          rcases eq_or_ne t r with htr | htr
          · subst htr
            have hnone : dlookup t counts = none := Option.not_isSome_iff_eq_none.mp hsome
            simp [hnone]
          · refine if_congr ?_ rfl rfl
            constructor
            · rintro ⟨h1, h2, h3, raw', hraw', h4⟩
              exact ⟨h1, h2, h3, raw', List.mem_cons_of_mem _ hraw', h4⟩
            · rintro ⟨h1, h2, h3, raw', hraw', h4⟩
              rcases List.mem_cons.mp hraw' with hx | hx
              · subst hx
                rw [hres] at h4
                exact absurd (Option.some_injective _ h4).symm htr
              · exact ⟨h1, h2, h3, raw', hx, h4⟩

/-- Predicate: note `s` contains some raw link target resolving to `t`. -/
def linksTo (known : List String) (idx : List (String × String)) (s : OrgFile) (t : String) :
    Prop :=
  ∃ raw ∈ extract_org_link_targets s.content,
    resolve_link_target s.relative_path raw known idx = some t

instance (known : List String) (idx : List (String × String)) (s : OrgFile) (t : String) :
    Decidable (linksTo known idx s t) := by
  unfold linksTo
  infer_instance

theorem processSource_lookup (known : List String) (idx : List (String × String))
    (counts : List (String × Nat)) (s : OrgFile) (t : String) :
    dlookup t (processSource known idx counts s)
      = (dlookup t counts).map
          (fun v => v + if t ≠ "" ∧ t ≠ s.relative_path ∧ linksTo known idx s t then 1 else 0) := by
  unfold processSource linksTo
  rw [countTarget_fold_lookup]
  by_cases hc : t ≠ "" ∧ t ≠ s.relative_path ∧
      (∃ raw ∈ extract_org_link_targets s.content,
        resolve_link_target s.relative_path raw known idx = some t)
  · rw [if_pos (by simpa using hc)]
    cases hval : dlookup t counts <;> simp [hval, hc]
  · rw [if_neg (by simpa using hc)]
    cases hval : dlookup t counts <;> simp [hval, hc]

theorem build_fold_lookup (known : List String) (idx : List (String × String)) :
    ∀ (srcs : List OrgFile) (counts : List (String × Nat)) (t : String),
    dlookup t (srcs.foldl (processSource known idx) counts)
      = (dlookup t counts).map
          (fun v => v + srcs.countP
            (fun s => decide (t ≠ "" ∧ t ≠ s.relative_path ∧ linksTo known idx s t))) := by
  intro srcs
  induction srcs with
  | nil =>
    intro counts t
    cases hval : dlookup t counts <;> simp [hval]
  | cons s srcs ih =>
    intro counts t
    simp only [List.foldl_cons]
    rw [ih, processSource_lookup]
    by_cases hp : t ≠ "" ∧ t ≠ s.relative_path ∧ linksTo known idx s t
    all_goals cases hval : dlookup t counts
    all_goals simp [hval, hp, List.countP_cons]
    all_goals omega

theorem counts0_lookup :
    ∀ (fs : List OrgFile) (c : List (String × Nat)) (t : String),
    dlookup t (fs.foldl (fun c f => ndictSet c f.relative_path 0) c)
      = if t ∈ fs.map (fun f => f.relative_path) then some 0 else dlookup t c := by
  intro fs
  induction fs with
  | nil =>
    intro c t
    simp
  | cons f fs ih =>
    intro c t
    simp only [List.foldl_cons]
    rw [ih]
    rcases eq_or_ne t f.relative_path with ht | ht
    · by_cases hmem : t ∈ fs.map (fun f => f.relative_path) <;>
        simp [hmem, ht, dlookup_ndictSet]
    · by_cases hmem : t ∈ fs.map (fun f => f.relative_path) <;>
        simp [hmem, ht, dlookup_ndictSet]

/-! ## Lemmas: backlink listing -/

theorem fbStep_fold_invariant (known : List String) (idx : List (String × String))
    (selected : String) :
    ∀ (files : List OrgFile) (st : List OrgFile × List String),
    ((∀ f ∈ st.1, f.relative_path ≠ selected) ∧
      (st.1.map (fun f => f.relative_path)).Nodup ∧
      (∀ f ∈ st.1, f.relative_path ∈ st.2)) →
    ((∀ f ∈ (files.foldl (fbStep known idx selected) st).1, f.relative_path ≠ selected) ∧
      ((files.foldl (fbStep known idx selected) st).1.map (fun f => f.relative_path)).Nodup ∧
      (∀ f ∈ (files.foldl (fbStep known idx selected) st).1,
        f.relative_path ∈ (files.foldl (fbStep known idx selected) st).2)) := by
  intro files
  induction files with
  | nil =>
    intro st h
    simpa using h
  | cons source files ih =>
    intro st h
    obtain ⟨h1, h2, h3⟩ := h
    simp only [List.foldl_cons]
    by_cases hsel : source.relative_path = selected
    · rw [show fbStep known idx selected st source = st by simp [fbStep, hsel]]
      exact ih st ⟨h1, h2, h3⟩
    · by_cases hcond : ((extract_org_link_targets source.content).any
          (fun raw => decide (resolve_link_target source.relative_path raw known idx
              = some selected))
          && !decide (source.relative_path ∈ st.2)) = true
      · rw [show fbStep known idx selected st source
            = (st.1 ++ [source], st.2 ++ [source.relative_path]) by
          simp only [fbStep, if_neg hsel]
          rw [if_pos hcond]]
        have hnotseen : source.relative_path ∉ st.2 := by
          have := (Bool.and_eq_true_iff.mp hcond).2
          simpa using this
        refine ih _ ⟨?_, ?_, ?_⟩
        · intro f hf
          rcases List.mem_append.mp hf with hx | hx
          · exact h1 f hx
          · rw [List.mem_singleton.mp hx]
            exact hsel
        · rw [List.map_append]
          have hnotin : source.relative_path ∉ st.1.map (fun f => f.relative_path) := by
            intro hmem
            obtain ⟨f, hf, hfe⟩ := List.mem_map.mp hmem
            exact hnotseen (hfe ▸ h3 f hf)
          simp [List.Nodup.append, h2, hnotin, List.disjoint_singleton]
        · intro f hf
          rcases List.mem_append.mp hf with hx | hx
          · exact List.mem_append_left _ (h3 f hx)
          · rw [List.mem_singleton.mp hx]
            exact List.mem_append_right _ (List.mem_singleton_self _)
      · rw [show fbStep known idx selected st source = st by
          simp only [fbStep, if_neg hsel]
          rw [if_neg hcond]]
        exact ih st ⟨h1, h2, h3⟩

theorem slookup_mem (k : String) :
    ∀ (d : List (String × String)) (v : String), slookup k d = some v → ∃ k', (k', v) ∈ d := by
  intro d
  induction d with
  | nil =>
    intro v h
    simp [slookup] at h
  | cons p d ih =>
    obtain ⟨k', w⟩ := p
    intro v h
    by_cases hk : k = k'
    · rw [slookup, if_pos hk] at h
      exact ⟨k', by simp [Option.some_injective _ h]⟩
    · rw [slookup, if_neg hk] at h
      obtain ⟨k'', hk''⟩ := ih v h
      exact ⟨k'', List.mem_cons_of_mem _ hk''⟩

theorem countP_congr_mem (l : List α) (p q : α → Bool) (h : ∀ a ∈ l, p a = q a) :
    l.countP p = l.countP q := by
  induction l with
  | nil => simp
  | cons x xs ih =>
    rw [List.countP_cons, List.countP_cons, h x (List.mem_cons_self x xs),
      ih (fun a ha => h a (List.mem_cons_of_mem _ ha))]

/-! ## Claim theorems -/

/-- C1: an `id:` target (case-insensitively, after trimming and fragment
stripping) is resolved purely through the identifier index: the result
is exactly the lookup of the lower-cased, trimmed remainder, `none`
when that identifier is absent, independently of the known-path set —
there is no fall-through to path resolution. -/
theorem resolve_id_precedence (source raw : String) (known : List String)
    (idx : List (String × String))
    (hid : pyStartsWith (pyToLower (fragStrip (pyStrip raw))) "id:" = true) :
    resolve_link_target source raw known idx
      = slookup (pyToLower (pyStrip (pyDrop (fragStrip (pyStrip raw)) 3))) idx := by
  have hne : ¬ pyStrip raw = "" := by
    intro h
    rw [h] at hid
    exact absurd hid (by decide)
  unfold resolve_link_target
  rw [if_neg hne, if_pos hid]

/-- Witness for C1: `[[id:XYZ]]` written in `a.org` resolves through the
identifier index to `c.org` even though the literal path `id:xyz` is a
known path. -/
theorem resolve_id_precedence_witness :
    resolve_link_target "a.org" " id:XYZ " ["id:xyz"] [("xyz", "c.org")] = some "c.org" := by
  have h := resolve_id_precedence "a.org" " id:XYZ " ["id:xyz"] [("xyz", "c.org")] (by decide)
  rw [h]
  decide

/-- C3: a target that survives the scheme chain is resolved as a path:
when it starts with `/` the candidate is the normalization of the
slash-stripped target against the corpus root, otherwise it is the
normalization of the join with the source note's own directory. -/
theorem resolve_path_base_selection (source raw : String) (known : List String)
    (idx : List (String × String)) (t : String)
    (hne : ¬ pyStrip raw = "")
    (hnid : pyStartsWith (pyToLower (fragStrip (pyStrip raw))) "id:" = false)
    (hs : schemeFilter (fragStrip (pyStrip raw)) = some t) :
    resolve_link_target source raw known idx
      = pathLookup known
          (if pyStartsWith t "/" then normalize_relative_path (pyLstripChars t ['/'])
           else normalize_relative_path (posixJoin (posixDirname source) t)) := by
  unfold resolve_link_target
  rw [if_neg hne, if_neg (by simp [hnid]), hs]
  simp only [pathCandidate]

/-- Witness for C3: `../b` written in `dir/a.org` is joined with the
source's directory `dir`, normalized to `b`, and found as `b.org`. -/
theorem resolve_path_base_selection_witness :
    resolve_link_target "dir/a.org" "../b" ["b.org"] [] = some "b.org" := by
  have h := resolve_path_base_selection "dir/a.org" "../b" ["b.org"] [] "../b"
    (by decide) (by decide) (by decide)
  rw [h]
  decide

/-- C4: in the final lookup stage, a candidate present in the known-path
set is returned as-is; the `candidate + ".org"` fallback is consulted
exactly when the candidate is absent AND does not already end in the
note extension; an absent candidate already ending in `.org` is
unresolved. -/
theorem pathLookup_extension_fallback (known : List String) (candidate : String)
    (hc : ¬ candidate = "") :
    (candidate ∈ known → pathLookup known candidate = some candidate)
    ∧ (candidate ∉ known → pyEndsWith candidate ".org" = false →
        pathLookup known candidate =
          (if (candidate ++ ".org") ∈ known then some (candidate ++ ".org") else none))
    ∧ (candidate ∉ known → pyEndsWith candidate ".org" = true →
        pathLookup known candidate = none) := by
  refine ⟨?_, ?_, ?_⟩
  · intro hmem
    unfold pathLookup
    rw [if_neg hc, if_pos hmem]
  · intro hmem hext
    unfold pathLookup
    rw [if_neg hc, if_neg hmem]
    simp [hext]
  · intro hmem hext
    unfold pathLookup
    rw [if_neg hc, if_neg hmem]
    simp [hext]

/-- Witness for C4: candidate `x` is not known and lacks the extension,
so `x.org` is tried and found. -/
theorem pathLookup_extension_fallback_witness :
    pathLookup ["x.org"] "x" = some "x.org" := by
  have h := (pathLookup_extension_fallback ["x.org"] "x" (by decide)).2.1 (by decide) (by decide)
  rw [h]
  decide

/-- C10: when every value of the identifier index lies in the known-path
set, any successful resolution lies in the known-path set — resolution
can never leave the corpus index, whatever the raw target contains. -/
theorem resolve_stays_in_corpus (source raw : String) (known : List String)
    (idx : List (String × String)) (hidx : ∀ p ∈ idx, p.2 ∈ known) (r : String)
    (hr : resolve_link_target source raw known idx = some r) : r ∈ known := by
  unfold resolve_link_target at hr
  by_cases h0 : pyStrip raw = ""
  · rw [if_pos h0] at hr
    exact absurd hr (by simp)
  · rw [if_neg h0] at hr
    by_cases hid : pyStartsWith (pyToLower (fragStrip (pyStrip raw))) "id:" = true
    · rw [if_pos hid] at hr
      obtain ⟨k', hk'⟩ := slookup_mem _ _ _ hr
      exact hidx (k', r) hk'
    · rw [if_neg hid] at hr
      cases hs : schemeFilter (fragStrip (pyStrip raw)) with
      | none =>
        rw [hs] at hr
        exact absurd hr (by simp)
      | some t =>
        rw [hs] at hr
        simp only at hr
        unfold pathLookup at hr
        by_cases hcv : pathCandidate source t = ""
        · rw [if_pos hcv] at hr
          exact absurd hr (by simp)
        · rw [if_neg hcv] at hr
          by_cases hmem : pathCandidate source t ∈ known
          · rw [if_pos hmem] at hr
            injection hr with h
            rw [← h]
            exact hmem
          · rw [if_neg hmem] at hr
            by_cases hext : (!pyEndsWith (pathCandidate source t) ".org") = true
            · rw [if_pos hext] at hr
              by_cases hm2 : (pathCandidate source t ++ ".org") ∈ known
              · rw [if_pos hm2] at hr
                injection hr with h
                rw [← h]
                exact hm2
              · rw [if_neg hm2] at hr
                exact absurd hr (by simp)
            · rw [if_neg hext] at hr
              exact absurd hr (by simp)

/-- Witness for C10: an identifier resolution on an index whose values
are known paths lands in the known-path set. -/
theorem resolve_stays_in_corpus_witness :
    resolve_link_target "x.org" "id:a" ["b.org"] [("a", "b.org")] = some "b.org" ∧
    "b.org" ∈ ["b.org"] := by
  refine ⟨by decide, ?_⟩
  exact resolve_stays_in_corpus "x.org" "id:a" ["b.org"] [("a", "b.org")] (by decide)
    "b.org" (by decide)

/-- C6: `find_backlinks` never returns the selected note, returns each
source note at most once (its relative paths are pairwise distinct even
when a source links to the target several times), and is sorted by
lower-cased title with lower-cased relative path as tie-break. -/
theorem find_backlinks_spec (files : List OrgFile) (selected : String) :
    (∀ f ∈ find_backlinks files selected, f.relative_path ≠ selected)
    ∧ ((find_backlinks files selected).map (fun f => f.relative_path)).Nodup
    ∧ (find_backlinks files selected).Pairwise (fun a b => backlinkLe a b = true) := by
  have hinv := fbStep_fold_invariant (corpusKnownPaths files) (build_id_to_path files)
    selected files ([], []) (by simp)
  have hperm : (find_backlinks files selected).Perm
      ((files.foldl (fbStep (corpusKnownPaths files) (build_id_to_path files) selected)
        ([], [])).1) := pySort_perm _ _
  obtain ⟨h1, h2, _⟩ := hinv
  refine ⟨fun f hf => h1 f (hperm.mem_iff.mp hf), (hperm.map _).nodup_iff.mpr h2, ?_⟩
  exact pySort_pairwise backlinkLe backlinkLe_trans backlinkLe_total _

/-- C5: `build_backlink_counts` has exactly the notes' relative paths as
keys, and the count of `t` is the number of source notes that are not
`t` themselves and contain at least one raw target resolving to `t` —
so self-references are never counted and repeated identical targets in
one source count once. -/
theorem build_backlink_counts_spec (files : List OrgFile)
    (h : ∀ f ∈ files, f.relative_path ≠ "") :
    (∀ p : String, (dlookup p (build_backlink_counts files)).isSome
        ↔ p ∈ files.map (fun f => f.relative_path))
    ∧ (∀ t n, dlookup t (build_backlink_counts files) = some n →
        n = files.countP (fun s => decide (s.relative_path ≠ t ∧
              linksTo (corpusKnownPaths files) (build_id_to_path files) s t))) := by
  have hb : ∀ t, dlookup t (build_backlink_counts files)
      = (if t ∈ files.map (fun f => f.relative_path) then some 0 else none).map
          (fun v => v + files.countP (fun s => decide (t ≠ "" ∧ t ≠ s.relative_path ∧
            linksTo (corpusKnownPaths files) (build_id_to_path files) s t))) := by
    intro t
    unfold build_backlink_counts
    rw [build_fold_lookup, counts0_lookup]
    by_cases hmem : t ∈ files.map (fun f => f.relative_path) <;> simp [hmem, dlookup]
  constructor
  · intro p
    rw [hb p]
    by_cases hmem : p ∈ files.map (fun f => f.relative_path) <;> simp [hmem]
  · intro t n hn
    rw [hb t] at hn
    by_cases hmem : t ∈ files.map (fun f => f.relative_path)
    · rw [if_pos hmem] at hn
      simp only [Option.map_some'] at hn
      injection hn with hn
      have htne : t ≠ "" := by
        obtain ⟨f, hf, hfe⟩ := List.mem_map.mp hmem
        rw [← hfe]
        exact h f hf
      rw [← hn]
      have : files.countP (fun s => decide (t ≠ "" ∧ t ≠ s.relative_path ∧
            linksTo (corpusKnownPaths files) (build_id_to_path files) s t))
          = files.countP (fun s => decide (s.relative_path ≠ t ∧
            linksTo (corpusKnownPaths files) (build_id_to_path files) s t)) := by
        refine countP_congr_mem _ _ _ ?_
        intro s _
        refine decide_eq_decide.mpr ?_
        constructor
        · rintro ⟨_, h2, h3⟩
          exact ⟨Ne.symm h2, h3⟩
        · rintro ⟨h2, h3⟩
          exact ⟨htne, Ne.symm h2, h3⟩
      rw [this]
      omega
    · rw [if_neg hmem] at hn
      simp at hn

def countsWitnessCorpus : List OrgFile :=
  [⟨"a.org", "a.org", "A", none, "[[b.org]] and [[b.org]] again and [[a.org]]"⟩,
   ⟨"b.org", "b.org", "B", none, ""⟩]

/-- Witness for C5: the duplicate `[[b.org]]` counts once and the
self-link `[[a.org]]` counts zero. -/
theorem build_backlink_counts_spec_witness :
    (∀ f ∈ countsWitnessCorpus, f.relative_path ≠ "")
    ∧ ((∀ p : String, (dlookup p (build_backlink_counts countsWitnessCorpus)).isSome
          ↔ p ∈ countsWitnessCorpus.map (fun f => f.relative_path))
      ∧ (∀ t n, dlookup t (build_backlink_counts countsWitnessCorpus) = some n →
          n = countsWitnessCorpus.countP (fun s => decide (s.relative_path ≠ t ∧
                linksTo (corpusKnownPaths countsWitnessCorpus)
                  (build_id_to_path countsWitnessCorpus) s t))))
    ∧ build_backlink_counts countsWitnessCorpus = [("a.org", 0), ("b.org", 1)] :=
  ⟨by decide, build_backlink_counts_spec countsWitnessCorpus (by decide), by decide⟩

/-! ## Renderer lemmas and remaining claims -/

theorem data_append (a b : String) : (a ++ b).data = a.data ++ b.data := by
  cases a
  cases b
  rfl

/-- A rendered line is a heading element iff it opens with `<h`. -/
def emitsHeading (s : String) : Bool := decide (s.data.take 2 = ['<', 'h'])

theorem emitsHeading_h5 (a b c d : String) :
    emitsHeading ("<h" ++ a ++ b ++ c ++ d) = true := by
  unfold emitsHeading
  simp only [data_append]
  rfl

theorem emitsHeading_paragraph (a b : String) :
    emitsHeading ("<p>" ++ a ++ b) = false := by
  unfold emitsHeading
  simp only [data_append]
  rfl

theorem star_prefix_of_stars_pos (s : String)
    (h : 0 < s.length - (pyLstripChars s ['*']).length) : pyStartsWith s "*" = true := by
  cases s with
  | mk data =>
    cases data with
    | nil => exact absurd h (by decide)
    | cons c rest =>
      by_cases hc : c = '*'
      · subst hc
        show List.isPrefixOf "*".data ('*' :: rest) = true
        rw [show "*".data = ['*'] from rfl]
        simp [List.isPrefixOf]
      · exfalso
        have hdrop : pyLstripChars (String.mk (c :: rest)) ['*'] = String.mk (c :: rest) := by
          unfold pyLstripChars
          rw [List.dropWhile_cons]
          simp [hc]
        rw [hdrop] at h
        omega

/-- The flattened heading test of `render_org_line` is equivalent to:
at least one leading star and a space right after the stars (which in
particular forces the index to be in bounds). -/
theorem headingCond_iff (line : String) :
    (pyStartsWith (lineStripped line) "*" && decide (0 < headingStars line)
      && decide (headingStars line < (lineStripped line).length)
      && ((lineStripped line).data.get? (headingStars line) == some ' ')) = true
    ↔ (0 < headingStars line ∧
        (lineStripped line).data.get? (headingStars line) = some ' ') := by
  constructor
  · intro hq
    simp only [Bool.and_eq_true, decide_eq_true_eq, beq_iff_eq] at hq
    exact ⟨hq.1.1.2, hq.2⟩
  · rintro ⟨h1, h2⟩
    have h3 : headingStars line < (lineStripped line).data.length :=
      (List.get?_eq_some.mp h2).1
    have h4 : pyStartsWith (lineStripped line) "*" = true :=
      star_prefix_of_stars_pos _ h1
    simp only [Bool.and_eq_true, decide_eq_true_eq, beq_iff_eq]
    exact ⟨⟨⟨h4, h1⟩, h3⟩, h2⟩

/-- C7 (amended): a heading element is emitted exactly when the line,
after trimming leading whitespace, starts with one or more `*` markers
followed by a required single space (the remainder may be empty); the
level is `min(markerCount + 1, 6)` and the title is the HTML-escaped
remainder — so 4 markers give level 5 and 7 markers give level 6. -/
theorem render_heading_spec (line source : String) (known : List String)
    (idx : List (String × String)) :
    (emitsHeading (render_org_line line source known idx) = true
      ↔ (0 < headingStars line ∧
          (lineStripped line).data.get? (headingStars line) = some ' '))
    ∧ ((0 < headingStars line ∧
          (lineStripped line).data.get? (headingStars line) = some ' ') →
        render_org_line line source known idx
          = "<h" ++ toString (min (headingStars line + 1) 6) ++ ">"
            ++ htmlEscape (pyDrop (lineStripped line) (headingStars line + 1))
            ++ "</h" ++ toString (min (headingStars line + 1) 6) ++ ">") := by
  by_cases hcc : 0 < headingStars line ∧
      (lineStripped line).data.get? (headingStars line) = some ' '
  · have hb := (headingCond_iff line).mpr hcc
    have hout : render_org_line line source known idx
        = "<h" ++ toString (min (headingStars line + 1) 6) ++ ">"
          ++ htmlEscape (pyDrop (lineStripped line) (headingStars line + 1))
          ++ "</h" ++ toString (min (headingStars line + 1) 6) ++ ">" := by
      simp only [render_org_line]
      rw [if_pos hb]
    refine ⟨?_, fun _ => hout⟩
    rw [hout]
    exact iff_of_true (emitsHeading_h5 _ _ _ _) hcc
  · have hb : (pyStartsWith (lineStripped line) "*" && decide (0 < headingStars line)
        && decide (headingStars line < (lineStripped line).length)
        && ((lineStripped line).data.get? (headingStars line) == some ' ')) = false :=
      Bool.eq_false_iff.mpr (fun hx => hcc ((headingCond_iff line).mp hx))
    have hout : render_org_line line source known idx
        = if lineStripped line = "" then "<div class=\x27spacer\x27></div>"
          else "<p>" ++ render_line_with_links (pyRstripChars line ['\n']) source known idx
            ++ "</p>" := by
      simp only [render_org_line]
      rw [if_neg (by rw [hb]; simp)]
    refine ⟨?_, fun hcc' => absurd hcc' hcc⟩
    rw [hout]
    by_cases hemp : lineStripped line = ""
    · rw [if_pos hemp]
      exact iff_of_false (by decide) hcc
    · rw [if_neg hemp]
      exact iff_of_false (by rw [emitsHeading_paragraph]; simp) hcc

/-- Witness for C7: `**** Sub heading` (4 markers) renders as a level-5
heading, 7 markers render as level 6, and a quote character in the
title is escaped the way `html.escape`'s default does. -/
theorem render_heading_spec_witness :
    render_org_line "**** Sub heading" "a.org" [] [] = "<h5>Sub heading</h5>"
    ∧ render_org_line "******* Deep" "a.org" [] [] = "<h6>Deep</h6>"
    ∧ render_org_line "* it\x27s" "a.org" [] [] = "<h2>it&#x27;s</h2>" := by
  refine ⟨?_, ?_, ?_⟩
  · have h := (render_heading_spec "**** Sub heading" "a.org" [] []).2 (by decide)
    rw [h]
    decide
  · have h := (render_heading_spec "******* Deep" "a.org" [] []).2 (by decide)
    rw [h]
    decide
  · have h := (render_heading_spec "* it\x27s" "a.org" [] []).2 (by decide)
    rw [h]
    decide

/-- Counterexample for C7 as stated: the line `* ` (one marker, one
space, EMPTY remainder) still renders as a heading element `<h2></h2>`,
although the claim requires a non-empty remainder for a heading. -/
theorem render_heading_empty_remainder_cex :
    pyDrop (lineStripped "* ") (headingStars "* " + 1) = ""
    ∧ render_org_line "* " "a.org" [] [] = "<h2></h2>"
    ∧ emitsHeading "<h2></h2>" = true := by
  decide

/-- C2 (code bug): the scanner maps the two distinct files `.a.org` and
`a.org` to the SAME relative path, because `lstrip("./")` strips every
leading `.`/`/` character rather than a literal `./` prefix — the
resulting scan violates the uniqueness invariant. -/
theorem scan_duplicate_relative_path :
    (scan_org_files [(".a.org", ""), ("a.org", "")]).map (fun f => f.relative_path)
      = ["a.org", "a.org"]
    ∧ ¬ ((scan_org_files [(".a.org", ""), ("a.org", "")]).map
        (fun f => f.relative_path)).Nodup := by
  decide

theorem mk_data (s : String) : String.mk s.data = s := by
  cases s
  rfl

theorem splitlinesAux_no_break (cs : List Char) :
    ∀ acc : List Char, (∀ c ∈ cs, c ≠ '\n' ∧ c ≠ '\r') →
    splitlinesAux cs acc
      = if (acc.reverse ++ cs).isEmpty then [] else [⟨acc.reverse ++ cs⟩] := by
  induction cs with
  | nil =>
    intro acc _
    cases acc with
    | nil => simp [splitlinesAux]
    | cons a as => simp [splitlinesAux]
  | cons c rest ih =>
    intro acc h
    have hc := h c (List.mem_cons_self _ _)
    rw [show splitlinesAux (c :: rest) acc = splitlinesAux rest (c :: acc) by
      simp [splitlinesAux, hc.1, hc.2]]
    rw [ih (c :: acc) (fun x hx => h x (List.mem_cons_of_mem _ hx))]
    simp

theorem pySplitlines_single (s : String) (h0 : s ≠ "")
    (h1 : ∀ c ∈ s.data, c ≠ '\n' ∧ c ≠ '\r') : pySplitlines s = [s] := by
  unfold pySplitlines
  rw [splitlinesAux_no_break s.data [] h1]
  have hne : s.data.isEmpty = false := by
    cases hd : s.data with
    | nil =>
      exfalso
      exact h0 (strData_eq (hd.trans rfl))
    | cons c r => simp
  simp [hne, mk_data]

theorem pyRstripChars_nl_id (s : String) (h : ∀ c ∈ s.data, c ≠ '\n') :
    pyRstripChars s ['\n'] = s := by
  unfold pyRstripChars
  have hstep : s.data.reverse.dropWhile (fun c => decide (c ∈ ['\n'])) = s.data.reverse := by
    cases hd : s.data.reverse with
    | nil => simp
    | cons c r =>
      rw [List.dropWhile_cons]
      have hcm : c ∈ s.data := by
        rw [← List.mem_reverse, hd]
        exact List.mem_cons_self _ _
      simp [h c hcm]
  rw [hstep, List.reverse_reverse, mk_data]

theorem pySlice_all (s : String) : pySlice s 0 s.length = s := by
  unfold pySlice
  rw [show s.data.drop 0 = s.data from rfl, Nat.sub_zero,
    show s.length = s.data.length from rfl, List.take_length, mk_data]

theorem render_plain_no_url (text : String) (h : urlFinditer text = []) :
    render_plain_text_with_links text = htmlEscape text := by
  unfold render_plain_text_with_links
  rw [h]
  simp only [List.foldl_nil]
  by_cases hlen : (0 : Nat) < text.length
  · rw [if_pos hlen, pySlice_all]
    cases text
    rfl
  · rw [if_neg hlen]
    have : text = "" := by
      cases text with
      | mk d =>
        cases d with
        | nil => rfl
        | cons c r =>
          exfalso
          exact hlen (by simp [String.length])
    subst this
    rfl

theorem render_line_no_link (line source : String) (known : List String)
    (idx : List (String × String)) (hl : orgLinkFinditer line = []) :
    render_line_with_links line source known idx = render_plain_text_with_links line := by
  unfold render_line_with_links
  rw [hl]
  simp only [List.foldl_nil]
  by_cases hlen : (0 : Nat) < line.length
  · rw [if_pos hlen, pySlice_all]
    cases hv : render_plain_text_with_links line
    rfl
  · rw [if_neg hlen]
    have : line = "" := by
      cases line with
      | mk d =>
        cases d with
        | nil => rfl
        | cons c r =>
          exfalso
          exact hlen (by simp [String.length])
    subst this
    rfl

/-- C8 (amended): a note whose content is one single line (no line
breaks), non-blank, not a heading line, with no org-link syntax and no
bare URLs, renders to exactly one paragraph element wrapping the
HTML-escaped original text. -/
theorem single_line_paragraph (content source : String) (known : List String)
    (idx : List (String × String))
    (h0 : content ≠ "")
    (h1 : ∀ c ∈ content.data, c ≠ '\n' ∧ c ≠ '\r')
    (h2 : ¬ pyLstrip content = "")
    (h3 : ¬ (0 < headingStars content ∧
        (lineStripped content).data.get? (headingStars content) = some ' '))
    (h4 : orgLinkFinditer content = [])
    (h5 : urlFinditer content = []) :
    render_org_to_html content source known idx = "<p>" ++ htmlEscape content ++ "</p>" := by
  unfold render_org_to_html
  rw [pySplitlines_single content h0 h1]
  simp only [List.map_cons, List.map_nil]
  rw [show joinWith "\n" [render_org_line content source known idx]
      = render_org_line content source known idx from rfl]
  have hrs : pyRstripChars content ['\n'] = content :=
    pyRstripChars_nl_id content (fun c hc => (h1 c hc).1)
  have hstr : lineStripped content = pyLstrip content := by
    unfold lineStripped
    rw [hrs]
  have hb : (pyStartsWith (lineStripped content) "*" && decide (0 < headingStars content)
      && decide (headingStars content < (lineStripped content).length)
      && ((lineStripped content).data.get? (headingStars content) == some ' ')) = false :=
    Bool.eq_false_iff.mpr (fun hx => h3 ((headingCond_iff content).mp hx))
  simp only [render_org_line]
  rw [if_neg (by rw [hb]; simp), if_neg (by rw [hstr]; exact h2), hrs,
    render_line_no_link content source known idx h4, render_plain_no_url content h5]

/-- Witness for C8: a plain one-line note becomes one paragraph, with
quote characters escaped as `html.escape`'s default does. -/
theorem single_line_paragraph_witness :
    render_org_to_html "hello world" "a.org" [] [] = "<p>hello world</p>"
    ∧ render_org_to_html "it\x27s \x22q\x22" "a.org" [] []
        = "<p>it&#x27;s &quot;q&quot;</p>" := by
  constructor
  · have h := single_line_paragraph "hello world" "a.org" [] [] (by decide) (by decide)
      (by decide) (by decide) (by decide) (by decide)
    rw [h]
    decide
  · have h := single_line_paragraph "it\x27s \x22q\x22" "a.org" [] [] (by decide) (by decide)
      (by decide) (by decide) (by decide) (by decide)
    rw [h]
    decide

/-- Counterexample for C8 as stated: `a\nb` has no headings, no links
and no blank lines, yet renders as TWO paragraph elements, not as one
paragraph wrapping the escaped original text. -/
theorem multi_line_paragraph_cex :
    render_org_to_html "a\nb" "s.org" [] [] = "<p>a</p>\n<p>b</p>"
    ∧ "<p>a</p>\n<p>b</p>" ≠ "<p>" ++ htmlEscape "a\nb" ++ "</p>" := by
  decide

/-- C9 (amended): a `CREATED` directive line containing a parseable
timestamp provides the key; the fallback to the first timestamp-shaped
token anywhere in the content is taken exactly when NO `CREATED` line
yields a key (in particular also when `CREATED` directives exist but
contain no timestamp); the key of a parsed timestamp is
`((year*100+month)*100+day)*100*100 + hour*100 + minute`, which is
monotonic with chronological order on in-range components; nothing is
ever raised — the function is total into `Option`. -/
theorem created_sort_key_spec :
    (∀ content, (pySplitlines content).findSome? createdKeyOfLine = none →
        extract_created_sort_key content
          = (match tsSearch content with
             | some m => _timestamp_match_to_sort_key m
             | none => none))
    ∧ (∀ content k, (pySplitlines content).findSome? createdKeyOfLine = some k →
        extract_created_sort_key content = some k)
    ∧ (∀ y mo d h mi : Int,
        orgSortKey y mo d h mi = ((y * 100 + mo) * 100 + d) * 100 * 100 + h * 100 + mi)
    ∧ (∀ y mo d h mi y' mo' d' h' mi' : Int,
        (0 ≤ mo ∧ mo ≤ 99 ∧ 0 ≤ d ∧ d ≤ 99 ∧ 0 ≤ h ∧ h ≤ 99 ∧ 0 ≤ mi ∧ mi ≤ 99) →
        (0 ≤ mo' ∧ mo' ≤ 99 ∧ 0 ≤ d' ∧ d' ≤ 99 ∧ 0 ≤ h' ∧ h' ≤ 99 ∧ 0 ≤ mi' ∧ mi' ≤ 99) →
        (y < y' ∨ (y = y' ∧ (mo < mo' ∨ (mo = mo' ∧ (d < d' ∨ (d = d' ∧
          (h < h' ∨ (h = h' ∧ mi < mi')))))))) →
        orgSortKey y mo d h mi < orgSortKey y' mo' d' h' mi') := by
  refine ⟨?_, ?_, ?_, ?_⟩
  · intro content h
    unfold extract_created_sort_key
    rw [h]
  · intro content k h
    unfold extract_created_sort_key
    rw [h]
  · intro y mo d h mi
    unfold orgSortKey
    ring
  · intro y mo d h mi y' mo' d' h' mi' hb hb' hlex
    unfold orgSortKey
    obtain ⟨b1, b2, b3, b4, b5, b6, b7, b8⟩ := hb
    obtain ⟨c1, c2, c3, c4, c5, c6, c7, c8⟩ := hb'
    rcases hlex with h | ⟨hy, hlex⟩
    · omega
    · subst hy
      rcases hlex with h | ⟨hm, hlex⟩
      · omega
      · subst hm
        rcases hlex with h | ⟨hd, hlex⟩
        · omega
        · subst hd
          rcases hlex with h | ⟨hh, h⟩
          · omega
          · subst hh
            omega

/-- Witness for C9: no timestamps at all yields no key via the
fallback, and the key ordering respects chronology. -/
theorem created_sort_key_spec_witness :
    extract_created_sort_key "nothing here"
      = (match tsSearch "nothing here" with
         | some m => _timestamp_match_to_sort_key m
         | none => none)
    ∧ orgSortKey 2019 12 31 23 59 < orgSortKey 2020 1 1 0 0 := by
  constructor
  · exact created_sort_key_spec.1 "nothing here" (by decide)
  · exact created_sort_key_spec.2.2.2 2019 12 31 23 59 2020 1 1 0 0 (by decide) (by decide)
      (Or.inl (by decide))

/-- Counterexample for C9 as stated: the content has a `CREATED`
directive (so, per the claim, the fallback must not fire and no key
should be produced since that directive holds no timestamp), yet the
code falls back to the timestamp on the next line and returns a key. -/
theorem created_fallback_despite_directive_cex :
    ((pySplitlines "CREATED: pending\n[2020-01-02]").any
        (fun l => (createdMatch l).isSome)) = true
    ∧ (∀ l ∈ pySplitlines "CREATED: pending\n[2020-01-02]",
        (match createdMatch l with
         | some v => tsSearch v
         | none => none) = none)
    ∧ extract_created_sort_key "CREATED: pending\n[2020-01-02]" = some 202001020000 := by
  decide
